import Mathlib

/-!
Verification development for `downloadsu.py`, a single-file tool that scrapes
a saved HTML page of video episodes, derives `S00E00 Title.ext` filenames,
and downloads missing files into per-season directories while tracking stats.

The source is embedded shallowly:
* string/regex processing of `make_filename` is modelled over `List Char`
  (Python `str.split`, `re.match` against the two fixed patterns,
  `re.sub` deletion, `str.zfill`, `str.title`, `str.lower`);
* the walk `download_all` is modelled as a recursive function over the
  parsed document (seasons with heading text and `source` elements), with an
  explicit filesystem, an environment oracle for `time.perf_counter` readings
  and `os.path.getsize`, an event log, and a trace of the stats record after
  every mutation;
* Python exceptions are explicit: `make_filename` returns `Except`
  (the `except AttributeError` branch of the source is the `.ok tail`
  fallback; the uncaught `ValueError` from tuple unpacking is `.error`),
  and an uncaught exception aborts the walk, recorded in the `err` field.
Casing functions model CPython's behaviour on ASCII, which covers every
character the two regex patterns can accept.
-/

/-- Python exceptions that escape the modelled fragments. -/
inductive PyErr where
  | valueError
  | zeroDivisionError
deriving DecidableEq, Repr

/-- Python `\s` for `str` patterns: ASCII whitespace plus the Unicode
whitespace characters CPython's `re` accepts. -/
def pyIsSpace (c : Char) : Bool :=
  c = ' ' || c = '\t' || c = '\n' || c = '\x0b' || c = '\x0c' || c = '\r' ||
  c = '\x1c' || c = '\x1d' || c = '\x1e' || c = '\x1f' || c = '\x85' || c = '\xa0' ||
  c = ' ' || (0x2000 ≤ c.toNat && c.toNat ≤ 0x200a) || c = ' ' ||
  c = ' ' || c = ' ' || c = ' ' || c = '　'

/-- The character class `["/<>|*.]` of `re.sub('["/<>|*.]+', '', title)`. -/
def illegalChar (c : Char) : Bool :=
  c = '"' || c = '/' || c = '<' || c = '>' || c = '|' || c = '*' || c = '.'

/-- The character class `[0-9a-zA-Z\s']` of the title group. -/
def isTitleChar (c : Char) : Bool :=
  c.isAlphanum || pyIsSpace c || c = '\''

/-- Python `str.split(sep)` for a one-character separator, on char lists.
`split` of the empty string is `[[]]`, matching Python's `['']`. -/
def splitOnChar (sep : Char) : List Char → List (List Char)
  | [] => [[]]
  | c :: cs =>
    match splitOnChar sep cs with
    | [] => [[]]
    | g :: gs => if c = sep then [] :: g :: gs else (c :: g) :: gs

/-- Python `lst[-1]` for the (never empty) result of a split. -/
def pyLast (l : List (List Char)) : List Char := l.getLastD []

/-- Python `str.lower` (ASCII). -/
def lowerL (s : List Char) : List Char := s.map Char.toLower

/-- Python `str.lower` on strings, as applied by the walker to headings. -/
def pyLower (s : String) : String := String.mk (lowerL s.toList)

/-- `re.sub('["/<>|*.]+', '', title)`: deleting every maximal run of illegal
characters is deleting each illegal character. -/
def removeIllegalL (s : List Char) : List Char := s.filter (fun c => !illegalChar c)

/-- Matching `s(?P<season>[0-9]+)e(?P<episode>[0-9]+)` at the head of the
list: the greedy digit runs are the maximal ones (a shorter run would leave a
digit where `e` is required, so greediness is deterministic here). -/
def matchSEat (cs : List Char) : Option (List Char × List Char) :=
  match cs with
  | [] => none
  | c :: rest =>
    if c = 's' then
      let ds := rest.takeWhile Char.isDigit
      if ds.isEmpty then none
      else
        match rest.drop ds.length with
        | [] => none
        | c2 :: rest2 =>
          if c2 = 'e' then
            let es := rest2.takeWhile Char.isDigit
            if es.isEmpty then none else some (ds, es)
          else none
    else none

/-- `re.match('\A(short)?s(?P<season>[0-9]+)e(?P<episode>[0-9]+)', base)`:
the optional greedy `(short)?` is tried with the literal consumed first, and
on failure the engine backtracks to the empty alternative. -/
def seMatch (cs : List Char) : Option (List Char × List Char) :=
  if cs.take 5 = ['s', 'h', 'o', 'r', 't'] then
    match matchSEat (cs.drop 5) with
    | some r => some r
    | none => matchSEat cs
  else matchSEat cs

/-- The `\.?\s` part of the title pattern, with the regex backtracking on the
optional dot made explicit: if a consumed dot is not followed by whitespace,
the empty alternative would require the dot itself to be whitespace — it is
not, so the whole match fails. -/
def dotSpace (cs : List Char) : Option (List Char) :=
  match cs with
  | [] => none
  | c :: rest =>
    if c = '.' then
      match rest with
      | [] => none
      | c2 :: rest2 => if pyIsSpace c2 then some rest2 else none
    else if pyIsSpace c then some rest else none

/-- `re.match("[0-9]+\.?\s(?P<title>[0-9a-zA-Z\s']+)", title)`, returning the
`title` group. The leading digit run is maximal (a shorter run leaves a digit
where `\.?\s` must match, and a digit is neither `.` nor whitespace). -/
def numPrefMatch (cs : List Char) : Option (List Char) :=
  let ds := cs.takeWhile Char.isDigit
  if ds.isEmpty then none
  else
    match dotSpace (cs.drop ds.length) with
    | none => none
    | some rest =>
      let ts := rest.takeWhile isTitleChar
      if ts.isEmpty then none else some ts

/-- Python `str.zfill(w)`. -/
def zfillL (w : Nat) (s : List Char) : List Char :=
  if w ≤ s.length then s
  else
    match s with
    | c :: rest =>
      if c = '+' || c = '-' then c :: (List.replicate (w - s.length) '0' ++ rest)
      else List.replicate (w - s.length) '0' ++ s
    | [] => List.replicate w '0'

/-- Worker for Python `str.title`: a letter after a non-letter is uppercased,
a letter after a letter is lowercased, everything else is kept. -/
def titleAux : Bool → List Char → List Char
  | _, [] => []
  | prevAlpha, c :: cs =>
    if c.isAlpha then
      (if prevAlpha then c.toLower else c.toUpper) :: titleAux true cs
    else c :: titleAux false cs

/-- Python `str.title` (ASCII letters are exactly the cased characters the
pattern-restricted inputs can contain). -/
def pyTitleL (s : List Char) : List Char := titleAux false s

/-- `url.split('/')[-1]`: the trailing path segment of the URL. -/
def tailSeg (url : String) : List Char := pyLast (splitOnChar '/' url.toList)

/-- `make_filename(url, title)` from the source. The trailing URL segment is
split on `.`; a tuple unpacking into other than two parts raises an uncaught
`ValueError`. If either regex fails, the resulting `AttributeError` is caught
and the trailing segment is returned verbatim. -/
def make_filename (url title : String) : Except PyErr String :=
  match splitOnChar '.' (tailSeg url) with
  | [file_name, extension] =>
    match seMatch (lowerL file_name), numPrefMatch (removeIllegalL title.toList) with
    | some (se, ep), some t =>
      .ok (String.mk ('S' :: zfillL 2 se ++ 'E' :: zfillL 2 ep ++ ' ' :: pyTitleL t
            ++ '.' :: extension))
    | _, _ => .ok (String.mk (tailSeg url))
  | _ => .error .valueError

/-- The title sanitization inside `make_filename`: illegal-character removal
followed by the numeric-prefix strip, which fails (`AttributeError` in the
source) when the prefix pattern does not match. -/
def sanitizeL (s : List Char) : Option (List Char) :=
  numPrefMatch (removeIllegalL s)

/-- Title sanitization on strings. -/
def sanitizeTitle (t : String) : Option String :=
  (sanitizeL t.toList).map String.mk

deriving instance DecidableEq for Except

/-- A `source` element of the page: the nearest preceding `h3` text and the
`src` attribute. -/
structure Video where
  title : String
  src : String
deriving DecidableEq, Repr

/-- A season container of the page: the nearest preceding `h1` text and the
`source` elements found inside, in document order. -/
structure Season where
  h1 : String
  videos : List Video
deriving DecidableEq, Repr

/-- The global `stats` dictionary of the source. -/
structure Stats where
  total_episodes : Nat
  total_downloads : Nat
  total_size_MB : ℚ
  total_time_sec : ℚ
deriving DecidableEq, Repr

/-- `stats = {'total_episodes': 0, 'total_downloads': 0, 'total_size_MB': 0,
'total_time_sec': 0}`. -/
def initStats : Stats := ⟨0, 0, 0, 0⟩

/-- The filesystem as the walk observes it: existing directory names and
existing file paths. -/
structure FS where
  dirs : List String
  files : List String
deriving DecidableEq, Repr

def emptyFS : FS := ⟨[], []⟩

/-- Environment oracle: `clock n` is the reading returned by the `n`-th call
to `time.perf_counter` during the walk, and `fsize p` is the byte size
`os.path.getsize(p)` reports for a file downloaded to path `p`. -/
structure Env where
  clock : Nat → ℚ
  fsize : String → ℚ

/-- Observable walk events, in order: directory creation, a fetch (a
`download_file` call, which writes its destination path), or a skip of an
already-present file. -/
inductive Ev where
  | mkdir (dir : String)
  | fetch (url : String) (path : String)
  | skip (path : String)
deriving DecidableEq, Repr

/-- Result of (a part of) the walk: final stats, filesystem and clock-call
counter, the event log, the trace of the stats record after each mutation,
and the uncaught exception if the walk aborted. -/
structure WRes where
  stats : Stats
  fs : FS
  tick : Nat
  evs : List Ev
  trace : List Stats
  err : Option PyErr
deriving DecidableEq, Repr

/-- `os.path.join(season_title, filename)`. -/
def pathJoin (d f : String) : String := String.mk (d.toList ++ '/' :: f.toList)

/-- `os.mkdir(season_title)` guarded by `os.path.isdir`. -/
def mkdirFS (fs : FS) (dir : String) : FS :=
  if dir ∈ fs.dirs then fs else { fs with dirs := fs.dirs ++ [dir] }

/-- The mkdir event emitted when the directory is absent. -/
def mkdirEvs (fs : FS) (dir : String) : List Ev :=
  if dir ∈ fs.dirs then [] else [.mkdir dir]

/-- `download_file` writes (temp file then `shutil.move`) its destination. -/
def writeFile (fs : FS) (path : String) : FS :=
  { fs with files := if path ∈ fs.files then fs.files else fs.files ++ [path] }

/-- The body of `for video in videos` (lines 94-118 of the source): the title
is lowered, the filename derived (an uncaught `ValueError` aborts), the fetch
is skipped when the path exists and overwrite is off, otherwise the file is
downloaded and the download/size stats are bumped; in both branches
`te = time.perf_counter()` is read and `te - ts` is added to the time stat —
this statement sits inside the video loop. -/
def runVideos (env : Env) (ow : Bool) (dir : String) (ts : ℚ) :
    Stats → FS → Nat → List Video → WRes
  | stats, _fs, tick, [] => ⟨stats, _fs, tick, [], [], none⟩
  | stats, fs, tick, v :: vs =>
    match make_filename v.src (pyLower v.title) with
    | .error e => ⟨stats, fs, tick, [], [], some e⟩
    | .ok filename =>
      let path := pathJoin dir filename
      if path ∈ fs.files ∧ ow = false then
        let te := env.clock tick
        let stats1 := { stats with total_time_sec := stats.total_time_sec + (te - ts) }
        let R := runVideos env ow dir ts stats1 fs (tick + 1) vs
        ⟨R.stats, R.fs, R.tick, .skip path :: R.evs, stats1 :: R.trace, R.err⟩
      else
        let fs1 := writeFile fs path
        let stats1 := { stats with total_downloads := stats.total_downloads + 1 }
        let stats2 := { stats1 with
          total_size_MB := stats1.total_size_MB + env.fsize path / 1000000 }
        let te := env.clock tick
        let stats3 := { stats2 with total_time_sec := stats2.total_time_sec + (te - ts) }
        let R := runVideos env ow dir ts stats3 fs1 (tick + 1) vs
        ⟨R.stats, R.fs, R.tick, .fetch v.src path :: R.evs,
          stats1 :: stats2 :: stats3 :: R.trace, R.err⟩

/-- The body of `for season in seasons` (lines 75-118): `ts` is read, the
heading is lowered into the directory name, `total_episodes` is bumped by the
number of sources before the directory check, the directory is created if
absent, and the videos are processed; an uncaught exception aborts the
remaining seasons. -/
def runSeasons (env : Env) (ow : Bool) : Stats → FS → Nat → List Season → WRes
  | stats, fs, tick, [] => ⟨stats, fs, tick, [], [], none⟩
  | stats, fs, tick, s :: rest =>
    let ts := env.clock tick
    let dir := pyLower s.h1
    let stats1 := { stats with
      total_episodes := stats.total_episodes + s.videos.length }
    let R := runVideos env ow dir ts stats1 (mkdirFS fs dir) (tick + 1) s.videos
    match R.err with
    | some e => ⟨R.stats, R.fs, R.tick, mkdirEvs fs dir ++ R.evs, stats1 :: R.trace, some e⟩
    | none =>
      let R2 := runSeasons env ow R.stats R.fs R.tick rest
      ⟨R2.stats, R2.fs, R2.tick, mkdirEvs fs dir ++ R.evs ++ R2.evs,
        stats1 :: (R.trace ++ R2.trace), R2.err⟩

/-- `download_all(html, overwrite)`: walk every season container of the
parsed document in order. -/
def download_all (env : Env) (doc : List Season) (ow : Bool)
    (stats : Stats) (fs : FS) : WRes :=
  runSeasons env ow stats fs 0 doc

/-- Python `/`: raises `ZeroDivisionError` on a zero denominator. -/
def pyDiv (a b : ℚ) : Except PyErr ℚ :=
  if b = 0 then .error .zeroDivisionError else .ok (a / b)

/-- `average_speed = stats['total_size_MB'] / stats['total_time_sec']`
(line 167 of the source), with no guard on the denominator. -/
def averageSpeed (s : Stats) : Except PyErr ℚ :=
  pyDiv s.total_size_MB s.total_time_sec

def countFetch (evs : List Ev) : Nat :=
  evs.countP fun e => match e with | .fetch _ _ => true | _ => false

def countMkdir (evs : List Ev) : Nat :=
  evs.countP fun e => match e with | .mkdir _ => true | _ => false

def countSkip (evs : List Ev) : Nat :=
  evs.countP fun e => match e with | .skip _ => true | _ => false

/-- Number of fetches whose destination is `p` — each one writes `p`. -/
def countFetchTo (p : String) (evs : List Ev) : Nat :=
  evs.countP fun e => match e with | .fetch _ q => q = p | _ => false

/-- Whether a `make_filename` call returned normally. -/
def exOk : Except PyErr String → Bool
  | .ok _ => true
  | .error _ => false

/-- Componentwise order on the stats record: every field of `a` is at most
the corresponding field of `b`. -/
def statsLe (a b : Stats) : Prop :=
  a.total_episodes ≤ b.total_episodes ∧ a.total_downloads ≤ b.total_downloads ∧
  a.total_size_MB ≤ b.total_size_MB ∧ a.total_time_sec ≤ b.total_time_sec

def idClock : Nat → ℚ := fun n => (n : ℚ)

def envT : Env := ⟨idClock, fun _ => 2000000⟩

def seasonT : Season :=
  ⟨"Season 1", [⟨"1. Pilot", "http://h/s1e1.mp4"⟩, ⟨"2. Arrival", "http://h/s1e2.mp4"⟩]⟩

/-- An environment whose clock readings are 0, 1, 2, ... and whose files all
have size 0. -/
def envW : Env := ⟨idClock, fun _ => 0⟩

/-- Two season containers with the same heading text. -/
def docDup : List Season := [⟨"X", []⟩, ⟨"X", []⟩]

/-- One season whose single source URL has no extension separator, so its
filename derivation raises `ValueError`. -/
def docBad : List Season := [⟨"X", [⟨"1. T", "nodot"⟩]⟩]

/-- Two seasons with distinct headings and one well-formed source each. -/
def docW : List Season :=
  [⟨"A", [⟨"1. Alpha", "http://h/s1e1.mp4"⟩]⟩,
   ⟨"B", [⟨"2. Beta", "http://h/s1e2.mp4"⟩]⟩]

/-- One season with one episode, for the skip scenario. -/
def sC6 : Season := ⟨"Season 1", [⟨"1. Pilot", "http://h/s1e1.mp4"⟩]⟩

/-- A filesystem on which the single episode of `sC6` is already present. -/
def fsC6 : FS := ⟨["season 1"], ["season 1/S01E01 Pilot.mp4"]⟩

lemma toList_mk (l : List Char) : (String.mk l).toList = l := rfl

lemma takeWhile_length_le (p : Char → Bool) (l : List Char) :
    (l.takeWhile p).length ≤ l.length := by
  induction l with
  | nil => simp [List.takeWhile]
  | cons c cs ih =>
    simp only [List.takeWhile]
    cases p c <;> simp <;> omega

lemma dotSpace_length (cs rest : List Char) (h : dotSpace cs = some rest) :
    rest.length + 1 ≤ cs.length := by
  cases cs with
  | nil => simp [dotSpace] at h
  | cons c cs' =>
    unfold dotSpace at h
    by_cases hc : c = '.'
    · simp only [hc, if_pos rfl] at h
      cases cs' with
      | nil => simp at h
      | cons c2 cs2 =>
        by_cases hs : pyIsSpace c2
        · simp [hs] at h
          subst h
          simp only [List.length_cons]
          omega
        · simp [hs] at h
    · simp only [if_neg hc] at h
      by_cases hs : pyIsSpace c
      · simp [hs] at h
        subst h
        simp only [List.length_cons]
        omega
      · simp [hs] at h

lemma numPrefMatch_shape (cs r : List Char) (h : numPrefMatch cs = some r) :
    (∀ c ∈ r, isTitleChar c = true) ∧ r.length + 2 ≤ cs.length := by
  unfold numPrefMatch at h
  by_cases h0 : (cs.takeWhile Char.isDigit).isEmpty
  · simp [h0] at h
  · simp only [h0, if_neg, Bool.false_eq_true, not_false_iff, if_false] at h
    cases hdp : dotSpace (cs.drop (cs.takeWhile Char.isDigit).length) with
    | none => rw [hdp] at h; simp at h
    | some rest =>
      rw [hdp] at h
      by_cases h1 : (rest.takeWhile isTitleChar).isEmpty
      · simp [h1] at h
      · simp only [h1, Bool.false_eq_true, not_false_iff, if_false, Option.some.injEq] at h
        subst h
        constructor
        · intro c hc
          exact List.mem_takeWhile_imp hc
        · have l1 := takeWhile_length_le isTitleChar rest
          have l2 := dotSpace_length _ _ hdp
          have l3 : (cs.drop (cs.takeWhile Char.isDigit).length).length =
              cs.length - (cs.takeWhile Char.isDigit).length := List.length_drop _ _
          have l4 := takeWhile_length_le Char.isDigit cs
          have l5 : 1 ≤ (cs.takeWhile Char.isDigit).length := by
            cases hn : cs.takeWhile Char.isDigit with
            | nil => rw [hn] at h0; simp at h0
            | cons a l => simp
          omega

lemma illegal_not_titleChar (c : Char) (h : illegalChar c = true) : isTitleChar c = false := by
  simp only [illegalChar, Bool.or_eq_true, decide_eq_true_eq] at h
  rcases h with ((((((h | h) | h) | h) | h) | h) | h) <;> subst h <;> decide

/-- The shared format computation of `make_filename` on well-formed inputs:
if the URL tail splits into exactly a base and an extension, the
season/episode pattern matches the lowered base, and the numeric-prefix
pattern matches the sanitized title, the result is the formatted name. -/
lemma make_filename_format (url title : String) (fn ext se ep t : List Char)
    (hsplit : splitOnChar '.' (tailSeg url) = [fn, ext])
    (hse : seMatch (lowerL fn) = some (se, ep))
    (ht : numPrefMatch (removeIllegalL title.toList) = some t) :
    make_filename url title =
      .ok (String.mk ('S' :: zfillL 2 se ++ 'E' :: zfillL 2 ep ++ ' ' :: pyTitleL t
            ++ '.' :: ext)) := by
  simp only [make_filename, hsplit, hse, ht]

/-- C1 counterexample: on the url `http://h/s1e1` (trailing segment without
an extension separator) the tuple unpacking in `make_filename` raises an
uncaught `ValueError`, so the function neither returns the trailing segment
nor avoids raising. -/
theorem make_filename_raises_on_dotless_tail :
    make_filename "http://h/s1e1" "1. Pilot" = .error .valueError ∧
    make_filename "http://h/s1e1" "1. Pilot" ≠
      .ok (String.mk (tailSeg "http://h/s1e1")) := by
  constructor
  · decide
  · decide

/-- C1 (amended): if the URL's trailing segment splits on `.` into exactly a
base and an extension and either pattern fails to match, `make_filename`
returns the trailing segment unchanged; but when the trailing segment does
not split into exactly two parts, the tuple unpacking raises `ValueError`,
which the handler (which catches only `AttributeError`) lets escape. -/
theorem make_filename_fallback_or_valueerror :
    (∀ (url title : String) (fn ext : List Char),
      splitOnChar '.' (tailSeg url) = [fn, ext] →
      (seMatch (lowerL fn) = none ∨ numPrefMatch (removeIllegalL title.toList) = none) →
      make_filename url title = .ok (String.mk (tailSeg url))) ∧
    (∀ url title : String, (splitOnChar '.' (tailSeg url)).length ≠ 2 →
      make_filename url title = .error .valueError) := by
  constructor
  · intro url title fn ext hsplit hfail
    rcases hfail with hse | ht
    · simp only [make_filename, hsplit, hse]
    · simp only [make_filename, hsplit, ht]
      first
      | rfl
      | cases seMatch (lowerL fn) with
        | none => rfl
        | some r => cases r; rfl
  · intro url title hlen
    rcases hsp : splitOnChar '.' (tailSeg url) with _ | ⟨a, _ | ⟨b, _ | ⟨c, r⟩⟩⟩
    · simp only [make_filename, hsp]
    · simp only [make_filename, hsp]
    · exact absurd (by rw [hsp]; rfl) hlen
    · simp only [make_filename, hsp]

/-- Witness for the amended C1: a trailing segment `bad.mp4` whose title
pattern fails falls back to `bad.mp4`, and a trailing segment `s2e2` with no
dot raises `ValueError`. -/
theorem make_filename_fallback_or_valueerror_witness :
    make_filename "http://h/bad.mp4" "x" = .ok "bad.mp4" ∧
    make_filename "http://h/s2e2" "1. T" = .error .valueError := by
  constructor
  · exact (make_filename_fallback_or_valueerror.1 "http://h/bad.mp4" "x"
      ['b', 'a', 'd'] ['m', 'p', '4'] (by decide) (Or.inr (by decide))).trans (by decide)
  · exact make_filename_fallback_or_valueerror.2 "http://h/s2e2" "1. T" (by decide)

/-- C2: for every input whose URL tail splits into a base and an extension,
whose lowered base matches the season/episode pattern, and whose sanitized
title matches the numeric-prefix pattern, `make_filename` returns
`S{season zfill 2}E{episode zfill 2} {title-cased remaining title}.{ext}`. -/
theorem make_filename_wellformed_format (url title : String)
    (fn ext se ep t : List Char)
    (hsplit : splitOnChar '.' (tailSeg url) = [fn, ext])
    (hse : seMatch (lowerL fn) = some (se, ep))
    (ht : numPrefMatch (removeIllegalL title.toList) = some t) :
    make_filename url title =
      .ok (String.mk ('S' :: zfillL 2 se ++ 'E' :: zfillL 2 ep ++ ' ' :: pyTitleL t
            ++ '.' :: ext)) :=
  make_filename_format url title fn ext se ep t hsplit hse ht

/-- Witness for C2: a url ending in `s1e2.mp4` with title `3. Gem Glow`
yields exactly `S01E02 Gem Glow.mp4`. -/
theorem make_filename_wellformed_format_witness :
    make_filename "http://h/s1e2.mp4" "3. Gem Glow" = .ok "S01E02 Gem Glow.mp4" :=
  (make_filename_wellformed_format "http://h/s1e2.mp4" "3. Gem Glow"
    ['s', '1', 'e', '2'] ['m', 'p', '4'] ['1'] ['2']
    ['G', 'e', 'm', ' ', 'G', 'l', 'o', 'w'] (by decide) (by decide) (by decide)).trans
    (by decide)

/-- C8: when the lowered base filename is the marker `short` followed by text
matching the season/episode pattern, the season and episode are extracted
from the text after the marker, and the output is built from those numbers,
the sanitized title and the extension only — the marker is dropped. -/
theorem short_marker_ignored (url title : String) (fn ext body se ep t : List Char)
    (hsplit : splitOnChar '.' (tailSeg url) = [fn, ext])
    (hshort : lowerL fn = 's' :: 'h' :: 'o' :: 'r' :: 't' :: body)
    (hbody : matchSEat body = some (se, ep))
    (ht : numPrefMatch (removeIllegalL title.toList) = some t) :
    make_filename url title =
      .ok (String.mk ('S' :: zfillL 2 se ++ 'E' :: zfillL 2 ep ++ ' ' :: pyTitleL t
            ++ '.' :: ext)) := by
  have hse : seMatch (lowerL fn) = some (se, ep) := by
    rw [hshort]
    unfold seMatch
    simp [hbody]
  exact make_filename_format url title fn ext se ep t hsplit hse ht

/-- Witness for C8: base filename `shorts3e1` with extension `mp4` yields
season 3, episode 1, and the marker string does not occur in the output. -/
theorem short_marker_ignored_witness :
    make_filename "http://h/shorts3e1.mp4" "1. Pilot" = .ok "S03E01 Pilot.mp4" ∧
    ¬ List.IsInfix "short".toList "S03E01 Pilot.mp4".toList := by
  constructor
  · exact (short_marker_ignored "http://h/shorts3e1.mp4" "1. Pilot"
      ['s', 'h', 'o', 'r', 't', 's', '3', 'e', '1'] ['m', 'p', '4']
      ['s', '3', 'e', '1'] ['3'] ['1'] ['P', 'i', 'l', 'o', 't']
      (by decide) (by decide) (by decide) (by decide)).trans (by decide)
  · decide

/-- C9 counterexample: sanitization is not idempotent — one application to
`3. Gem Glow` yields `Gem Glow`, and a second application fails (the result
no longer carries a numeric prefix), rather than returning `Gem Glow`. -/
theorem sanitize_twice_counterexample :
    sanitizeTitle "3. Gem Glow" = some "Gem Glow" ∧
    sanitizeTitle "Gem Glow" ≠ some "Gem Glow" ∧
    sanitizeTitle "Gem Glow" = none := by
  refine ⟨by decide, by decide, by decide⟩

/-- C9 (amended): the illegal-character-removal step alone is idempotent,
but the full sanitization (illegal-character removal followed by
numeric-prefix stripping) is never idempotent on a title where it succeeds:
a second application never returns the sanitized title unchanged. -/
theorem sanitize_not_idempotent :
    (∀ t : String, removeIllegalL (removeIllegalL t.toList) = removeIllegalL t.toList) ∧
    (∀ t s : String, sanitizeTitle t = some s → sanitizeTitle s ≠ some s) := by
  constructor
  · intro t
    simp [removeIllegalL, List.filter_filter]
  · intro t s h hcontra
    rw [sanitizeTitle, Option.map_eq_some'] at h
    obtain ⟨l, hl, hs⟩ := h
    subst hs
    have hshape := numPrefMatch_shape _ _ hl
    have hclean : removeIllegalL l = l := by
      rw [removeIllegalL, List.filter_eq_self]
      intro a ha
      have := hshape.1 a ha
      cases hil : illegalChar a with
      | false => simp
      | true => rw [illegal_not_titleChar a hil] at this; exact absurd this (by simp)
    rw [sanitizeTitle, Option.map_eq_some'] at hcontra
    obtain ⟨m, hm, hms⟩ := hcontra
    have hml : m = l := congrArg String.data hms
    subst hml
    rw [sanitizeL, toList_mk, hclean] at hm
    have := (numPrefMatch_shape _ _ hm).2
    omega

/-- Witness for the amended C9: at `3. Gem Glow` sanitization succeeds with
`Gem Glow`, and the theorem forbids a second application returning it. -/
theorem sanitize_not_idempotent_witness :
    sanitizeTitle "Gem Glow" ≠ some "Gem Glow" :=
  sanitize_not_idempotent.2 "3. Gem Glow" "Gem Glow" (by decide)

lemma contains_eq_mem (l : List String) (p : String) : l.contains p = true ↔ p ∈ l :=
  List.elem_iff

lemma runVideos_basic (env : Env) (ow : Bool) (dir : String) (ts : ℚ)
    (vs : List Video) (stats : Stats) (fs : FS) (tick : Nat) :
    countFetch (runVideos env ow dir ts stats fs tick vs).evs ≤ vs.length ∧
    countMkdir (runVideos env ow dir ts stats fs tick vs).evs = 0 ∧
    (runVideos env ow dir ts stats fs tick vs).fs.dirs = fs.dirs ∧
    (∀ p, p ∈ fs.files → p ∈ (runVideos env ow dir ts stats fs tick vs).fs.files) ∧
    (runVideos env ow dir ts stats fs tick vs).stats.total_episodes = stats.total_episodes ∧
    tick ≤ (runVideos env ow dir ts stats fs tick vs).tick := by
  induction vs generalizing stats fs tick with
  | nil => simp [runVideos, countFetch, countMkdir]
  | cons v vs ih =>
    cases hmf : make_filename v.src (pyLower v.title) with
    | error e => simp [runVideos, hmf, countFetch, countMkdir]
    | ok f =>
      by_cases hc : pathJoin dir f ∈ fs.files ∧ ow = false
      · obtain ⟨h1, h2, h3, h4, h5, h6⟩ := ih { stats with total_time_sec :=
            stats.total_time_sec + (env.clock tick - ts) } fs (tick + 1)
        simp only [runVideos, hmf]
        rw [if_pos hc]
        refine ⟨?_, ?_, ?_, ?_, ?_, ?_⟩
        · simp only [countFetch, List.countP_cons] at h1 ⊢
          simp
          omega
        · simpa [countMkdir, List.countP_cons] using h2
        · exact h3
        · exact h4
        · exact h5
        · simp only []
          omega
      · obtain ⟨h1, h2, h3, h4, h5, h6⟩ := ih
          { stats with
            total_downloads := stats.total_downloads + 1,
            total_size_MB := stats.total_size_MB + env.fsize (pathJoin dir f) / 1000000,
            total_time_sec := stats.total_time_sec + (env.clock tick - ts) }
          (writeFile fs (pathJoin dir f)) (tick + 1)
        simp only [runVideos, hmf]
        rw [if_neg hc]
        refine ⟨?_, ?_, ?_, ?_, ?_, ?_⟩
        · simp only [countFetch, List.countP_cons] at h1 ⊢
          simp
          omega
        · simpa [countMkdir, List.countP_cons] using h2
        · exact h3
        · intro p hp
          refine h4 p ?_
          simp only [writeFile]
          by_cases hw : pathJoin dir f ∈ fs.files <;> simp [hw, hp]
        · exact h5
        · simp only []
          omega

lemma mem_writeFile_self (fs : FS) (path : String) : path ∈ (writeFile fs path).files := by
  simp only [writeFile]
  by_cases h : path ∈ fs.files <;> simp [h]

lemma mem_writeFile_of_mem (fs : FS) (path p : String) (hp : p ∈ fs.files) :
    p ∈ (writeFile fs path).files := by
  simp only [writeFile]
  by_cases h : path ∈ fs.files <;> simp [h, hp]

lemma runVideos_err_none (env : Env) (ow : Bool) (dir : String) (ts : ℚ)
    (vs : List Video) (stats : Stats) (fs : FS) (tick : Nat)
    (hok : ∀ v ∈ vs, exOk (make_filename v.src (pyLower v.title)) = true) :
    (runVideos env ow dir ts stats fs tick vs).err = none := by
  induction vs generalizing stats fs tick with
  | nil => simp [runVideos]
  | cons v vs ih =>
    have hv := hok v (List.mem_cons_self v vs)
    cases hmf : make_filename v.src (pyLower v.title) with
    | error e => rw [hmf] at hv; simp [exOk] at hv
    | ok f =>
      have htail : ∀ v' ∈ vs, exOk (make_filename v'.src (pyLower v'.title)) = true :=
        fun v' hv' => hok v' (List.mem_cons_of_mem v hv')
      by_cases hc : pathJoin dir f ∈ fs.files ∧ ow = false
      · simp only [runVideos, hmf]
        rw [if_pos hc]
        exact ih _ fs _ htail
      · simp only [runVideos, hmf]
        rw [if_neg hc]
        exact ih _ _ _ htail

lemma runVideos_all_fetch (env : Env) (ow : Bool) (dir : String) (ts : ℚ)
    (vs : List Video) (how : ow = true) :
    ∀ (stats : Stats) (fs : FS) (tick : Nat),
    (∀ v ∈ vs, exOk (make_filename v.src (pyLower v.title)) = true) →
    countFetch (runVideos env ow dir ts stats fs tick vs).evs = vs.length ∧
    countSkip (runVideos env ow dir ts stats fs tick vs).evs = 0 ∧
    ∀ v ∈ vs, ∀ f, make_filename v.src (pyLower v.title) = .ok f →
      Ev.fetch v.src (pathJoin dir f) ∈ (runVideos env ow dir ts stats fs tick vs).evs ∧
      pathJoin dir f ∈ (runVideos env ow dir ts stats fs tick vs).fs.files := by
  induction vs with
  | nil =>
    intro stats fs tick _
    simp [runVideos, countFetch, countSkip]
  | cons v vs ih =>
    intro stats fs tick hok
    have hv := hok v (List.mem_cons_self v vs)
    cases hmf : make_filename v.src (pyLower v.title) with
    | error e => rw [hmf] at hv; simp [exOk] at hv
    | ok f =>
      have htail : ∀ v' ∈ vs, exOk (make_filename v'.src (pyLower v'.title)) = true :=
        fun v' hv' => hok v' (List.mem_cons_of_mem v hv')
      have hc : ¬(pathJoin dir f ∈ fs.files ∧ ow = false) := by
        rintro ⟨-, hfalse⟩
        rw [how] at hfalse
        exact Bool.noConfusion hfalse
      obtain ⟨h1, h2, h3⟩ := ih
        { stats with
          total_downloads := stats.total_downloads + 1,
          total_size_MB := stats.total_size_MB + env.fsize (pathJoin dir f) / 1000000,
          total_time_sec := stats.total_time_sec + (env.clock tick - ts) }
        (writeFile fs (pathJoin dir f)) (tick + 1) htail
      simp only [runVideos, hmf]
      rw [if_neg hc]
      refine ⟨?_, ?_, ?_⟩
      · simp only [countFetch, List.countP_cons] at h1 ⊢
        simp
        omega
      · simpa [countSkip, List.countP_cons] using h2
      · intro v' hv' f' hf'
        rcases List.mem_cons.mp hv' with hEq | hmem
        · subst hEq
          rw [hmf] at hf'
          injection hf' with hff
          subst hff
          constructor
          · exact List.mem_cons_self _ _
          · exact (runVideos_basic env ow dir ts vs _ _ _).2.2.2.1 _
              (mem_writeFile_self fs (pathJoin dir f))
        · obtain ⟨hm1, hm2⟩ := h3 v' hmem f' hf'
          exact ⟨List.mem_cons_of_mem _ hm1, hm2⟩

lemma runVideos_nofetch (env : Env) (ow : Bool) (dir : String) (ts : ℚ) (p : String)
    (vs : List Video) (how : ow = false) :
    ∀ (stats : Stats) (fs : FS) (tick : Nat), p ∈ fs.files →
    countFetchTo p (runVideos env ow dir ts stats fs tick vs).evs = 0 := by
  induction vs with
  | nil =>
    intro stats fs tick _
    simp [runVideos, countFetchTo]
  | cons v vs ih =>
    intro stats fs tick hp
    cases hmf : make_filename v.src (pyLower v.title) with
    | error e => simp [runVideos, hmf, countFetchTo]
    | ok f =>
      by_cases hc : pathJoin dir f ∈ fs.files ∧ ow = false
      · simp only [runVideos, hmf]
        rw [if_pos hc]
        simpa [countFetchTo, List.countP_cons] using ih _ fs _ hp
      · simp only [runVideos, hmf]
        rw [if_neg hc]
        have hne : pathJoin dir f ≠ p := by
          intro hEq
          exact hc ⟨hEq ▸ hp, how⟩
        have hrec := ih
          { stats with
            total_downloads := stats.total_downloads + 1,
            total_size_MB := stats.total_size_MB + env.fsize (pathJoin dir f) / 1000000,
            total_time_sec := stats.total_time_sec + (env.clock tick - ts) }
          (writeFile fs (pathJoin dir f)) (tick + 1)
          (mem_writeFile_of_mem fs (pathJoin dir f) p hp)
        simp [countFetchTo, List.countP_cons, hne] at hrec ⊢
        exact hrec

lemma runVideos_once (env : Env) (ow : Bool) (dir : String) (ts : ℚ) (p : String)
    (vs : List Video) (how : ow = false) :
    ∀ (stats : Stats) (fs : FS) (tick : Nat),
    countFetchTo p (runVideos env ow dir ts stats fs tick vs).evs ≤ 1 ∧
    (1 ≤ countFetchTo p (runVideos env ow dir ts stats fs tick vs).evs →
      p ∈ (runVideos env ow dir ts stats fs tick vs).fs.files) := by
  induction vs with
  | nil =>
    intro stats fs tick
    simp [runVideos, countFetchTo]
  | cons v vs ih =>
    intro stats fs tick
    cases hmf : make_filename v.src (pyLower v.title) with
    | error e => simp [runVideos, hmf, countFetchTo]
    | ok f =>
      by_cases hc : pathJoin dir f ∈ fs.files ∧ ow = false
      · obtain ⟨h1, h2⟩ := ih { stats with total_time_sec :=
            stats.total_time_sec + (env.clock tick - ts) } fs (tick + 1)
        simp only [runVideos, hmf]
        rw [if_pos hc]
        constructor
        · simpa [countFetchTo, List.countP_cons] using h1
        · intro hcnt
          refine h2 ?_
          simpa [countFetchTo, List.countP_cons] using hcnt
      · simp only [runVideos, hmf]
        rw [if_neg hc]
        by_cases hpq : pathJoin dir f = p
        · subst hpq
          have hzero := runVideos_nofetch env ow dir ts (pathJoin dir f) vs how
            { stats with
              total_downloads := stats.total_downloads + 1,
              total_size_MB := stats.total_size_MB + env.fsize (pathJoin dir f) / 1000000,
              total_time_sec := stats.total_time_sec + (env.clock tick - ts) }
            (writeFile fs (pathJoin dir f)) (tick + 1)
            (mem_writeFile_self fs (pathJoin dir f))
          constructor
          · simp only [countFetchTo] at hzero ⊢
            simp only [List.countP_cons]
            rw [hzero]
            simp
          · intro _
            exact (runVideos_basic env ow dir ts vs _ _ _).2.2.2.1 _
              (mem_writeFile_self fs (pathJoin dir f))
        · obtain ⟨h1, h2⟩ := ih
            { stats with
              total_downloads := stats.total_downloads + 1,
              total_size_MB := stats.total_size_MB + env.fsize (pathJoin dir f) / 1000000,
              total_time_sec := stats.total_time_sec + (env.clock tick - ts) }
            (writeFile fs (pathJoin dir f)) (tick + 1)
          constructor
          · simpa [countFetchTo, List.countP_cons, hpq] using h1
          · intro hcnt
            refine h2 ?_
            simpa [countFetchTo, List.countP_cons, hpq] using hcnt

lemma runVideos_skip_all (env : Env) (ow : Bool) (dir : String) (ts : ℚ)
    (vs : List Video) (how : ow = false) :
    ∀ (stats : Stats) (fs : FS) (tick : Nat),
    (∀ v ∈ vs, ∃ f, make_filename v.src (pyLower v.title) = .ok f ∧
      pathJoin dir f ∈ fs.files) →
    (runVideos env ow dir ts stats fs tick vs).stats.total_downloads =
      stats.total_downloads ∧
    (runVideos env ow dir ts stats fs tick vs).stats.total_size_MB =
      stats.total_size_MB ∧
    countFetch (runVideos env ow dir ts stats fs tick vs).evs = 0 ∧
    (runVideos env ow dir ts stats fs tick vs).err = none ∧
    (runVideos env ow dir ts stats fs tick vs).fs = fs ∧
    countSkip (runVideos env ow dir ts stats fs tick vs).evs = vs.length := by
  induction vs with
  | nil =>
    intro stats fs tick _
    simp [runVideos, countFetch, countSkip]
  | cons v vs ih =>
    intro stats fs tick hall
    obtain ⟨f, hf, hmem⟩ := hall v (List.mem_cons_self v vs)
    have htail : ∀ v' ∈ vs, ∃ f', make_filename v'.src (pyLower v'.title) = .ok f' ∧
        pathJoin dir f' ∈ fs.files :=
      fun v' hv' => hall v' (List.mem_cons_of_mem v hv')
    have hc : pathJoin dir f ∈ fs.files ∧ ow = false := ⟨hmem, how⟩
    obtain ⟨h1, h2, h3, h4, h5, h6⟩ := ih { stats with total_time_sec :=
        stats.total_time_sec + (env.clock tick - ts) } fs (tick + 1) htail
    simp only [runVideos, hf]
    rw [if_pos hc]
    refine ⟨by simpa using h1, by simpa using h2, ?_, h4, h5, ?_⟩
    · simpa [countFetch, List.countP_cons] using h3
    · simp only [countSkip, List.countP_cons] at h6 ⊢
      simp
      omega

lemma getLastD_cons' {α : Type} (b : α) (l : List α) (d : α) :
    (b :: l).getLastD d = l.getLastD b := by
  cases l <;> rfl

lemma chain_append_of {α : Type} (R : α → α → Prop) (a : α) (l1 l2 : List α)
    (h1 : List.Chain R a l1) (h2 : List.Chain R (l1.getLastD a) l2) :
    List.Chain R a (l1 ++ l2) := by
  induction l1 generalizing a with
  | nil => simpa using h2
  | cons b l ih =>
    cases h1 with
    | cons hab hb =>
      refine List.Chain.cons hab (ih b hb ?_)
      rw [getLastD_cons'] at h2
      exact h2

lemma getLastD_append' {α : Type} (l1 l2 : List α) (d : α) :
    (l1 ++ l2).getLastD d = l2.getLastD (l1.getLastD d) := by
  induction l1 generalizing d with
  | nil => rfl
  | cons b l ih => rw [List.cons_append, getLastD_cons', ih, getLastD_cons']

lemma runVideos_chain (env : Env) (ow : Bool) (dir : String) (ts : ℚ) (vs : List Video)
    (hclock : ∀ m n : Nat, m ≤ n → env.clock m ≤ env.clock n)
    (hsize : ∀ p : String, 0 ≤ env.fsize p) :
    ∀ (stats : Stats) (fs : FS) (tick : Nat),
    (∀ n, tick ≤ n → ts ≤ env.clock n) →
    stats.total_downloads + vs.length ≤ stats.total_episodes →
    List.Chain statsLe stats (runVideos env ow dir ts stats fs tick vs).trace ∧
    (runVideos env ow dir ts stats fs tick vs).trace.getLastD stats =
      (runVideos env ow dir ts stats fs tick vs).stats ∧
    (∀ st ∈ (runVideos env ow dir ts stats fs tick vs).trace,
      st.total_downloads ≤ st.total_episodes) ∧
    (runVideos env ow dir ts stats fs tick vs).stats.total_downloads ≤
      (runVideos env ow dir ts stats fs tick vs).stats.total_episodes := by
  induction vs with
  | nil =>
    intro stats fs tick hts hinv
    simp only [List.length_nil] at hinv
    simp [runVideos]
    omega
  | cons v vs ih =>
    intro stats fs tick hts hinv
    simp only [List.length_cons] at hinv
    cases hmf : make_filename v.src (pyLower v.title) with
    | error e =>
      simp [runVideos, hmf]
      omega
    | ok f =>
      by_cases hc : pathJoin dir f ∈ fs.files ∧ ow = false
      · obtain ⟨ch, lastEq, mems, fin⟩ := ih
          { stats with total_time_sec := stats.total_time_sec + (env.clock tick - ts) }
          fs (tick + 1) (fun n hn => hts n (by omega)) (by simp; omega)
        simp only [runVideos, hmf]
        rw [if_pos hc]
        refine ⟨?_, ?_, ?_, ?_⟩
        · refine List.Chain.cons ?_ ch
          exact ⟨le_refl _, le_refl _, le_refl _,
            le_add_of_nonneg_right (sub_nonneg.mpr (hts tick (le_refl tick)))⟩
        · rw [getLastD_cons']
          exact lastEq
        · intro st hst
          rcases List.mem_cons.mp hst with hEq | hmem
          · subst hEq
            simp
            omega
          · exact mems st hmem
        · exact fin
      · obtain ⟨ch, lastEq, mems, fin⟩ := ih
          { stats with
            total_downloads := stats.total_downloads + 1,
            total_size_MB := stats.total_size_MB + env.fsize (pathJoin dir f) / 1000000,
            total_time_sec := stats.total_time_sec + (env.clock tick - ts) }
          (writeFile fs (pathJoin dir f)) (tick + 1)
          (fun n hn => hts n (by omega)) (by simp; omega)
        simp only [runVideos, hmf]
        rw [if_neg hc]
        refine ⟨?_, ?_, ?_, ?_⟩
        · refine List.Chain.cons ?_ (List.Chain.cons ?_ (List.Chain.cons ?_ ch))
          · exact ⟨le_refl _, Nat.le_succ _, le_refl _, le_refl _⟩
          · exact ⟨le_refl _, le_refl _,
              le_add_of_nonneg_right (div_nonneg (hsize _) (by norm_num)), le_refl _⟩
          · exact ⟨le_refl _, le_refl _, le_refl _,
              le_add_of_nonneg_right (sub_nonneg.mpr (hts tick (le_refl tick)))⟩
        · rw [getLastD_cons', getLastD_cons', getLastD_cons']
          exact lastEq
        · intro st hst
          rcases List.mem_cons.mp hst with hEq | hst2
          · subst hEq
            simp
            omega
          · rcases List.mem_cons.mp hst2 with hEq | hst3
            · subst hEq
              simp
              omega
            · rcases List.mem_cons.mp hst3 with hEq | hmem
              · subst hEq
                simp
                omega
              · exact mems st hmem
        · exact fin

lemma mkdirFS_files (fs : FS) (dir : String) : (mkdirFS fs dir).files = fs.files := by
  unfold mkdirFS
  split <;> rfl

lemma mkdirFS_dirs_of_mem (fs : FS) (dir d : String) (hd : d ∈ fs.dirs) :
    d ∈ (mkdirFS fs dir).dirs := by
  unfold mkdirFS
  split
  · exact hd
  · simp [hd]

lemma mkdirFS_dirs_fresh (fs : FS) (dir : String) (h : dir ∉ fs.dirs) :
    (mkdirFS fs dir).dirs = fs.dirs ++ [dir] := by
  unfold mkdirFS
  rw [if_neg h]

lemma mkdirEvs_countFetch (fs : FS) (dir : String) : countFetch (mkdirEvs fs dir) = 0 := by
  unfold mkdirEvs
  split <;> simp [countFetch]

lemma mkdirEvs_countFetchTo (fs : FS) (dir p : String) :
    countFetchTo p (mkdirEvs fs dir) = 0 := by
  unfold mkdirEvs
  split <;> simp [countFetchTo]

lemma mkdirEvs_countSkip (fs : FS) (dir : String) : countSkip (mkdirEvs fs dir) = 0 := by
  unfold mkdirEvs
  split <;> simp [countSkip]

lemma mkdirEvs_countMkdir (fs : FS) (dir : String) (h : dir ∉ fs.dirs) :
    countMkdir (mkdirEvs fs dir) = 1 := by
  unfold mkdirEvs
  rw [if_neg h]
  simp [countMkdir]

lemma countFetch_append (l1 l2 : List Ev) :
    countFetch (l1 ++ l2) = countFetch l1 + countFetch l2 := by
  simp [countFetch, List.countP_append]

lemma countSkip_append (l1 l2 : List Ev) :
    countSkip (l1 ++ l2) = countSkip l1 + countSkip l2 := by
  simp [countSkip, List.countP_append]

lemma runSeasons_basic (env : Env) (ow : Bool) (doc : List Season) :
    ∀ (stats : Stats) (fs : FS) (tick : Nat),
    countFetch (runSeasons env ow stats fs tick doc).evs ≤
      (doc.map fun s => s.videos.length).sum ∧
    (∀ p, p ∈ fs.files → p ∈ (runSeasons env ow stats fs tick doc).fs.files) ∧
    tick ≤ (runSeasons env ow stats fs tick doc).tick := by
  induction doc with
  | nil =>
    intro stats fs tick
    simp [runSeasons, countFetch]
  | cons s rest ih =>
    intro stats fs tick
    obtain ⟨v1, v2, v3, v4, v5, v6⟩ := runVideos_basic env ow (pyLower s.h1)
      (env.clock tick) s.videos
      { stats with total_episodes := stats.total_episodes + s.videos.length }
      (mkdirFS fs (pyLower s.h1)) (tick + 1)
    cases herr : (runVideos env ow (pyLower s.h1) (env.clock tick)
        { stats with total_episodes := stats.total_episodes + s.videos.length }
        (mkdirFS fs (pyLower s.h1)) (tick + 1) s.videos).err with
    | some e =>
      simp only [runSeasons, herr]
      refine ⟨?_, ?_, ?_⟩
      · simp only [countFetch, List.countP_append] at v1 ⊢
        have hm := mkdirEvs_countFetch fs (pyLower s.h1)
        simp only [countFetch] at hm
        simp only [List.map_cons, List.sum_cons]
        omega
      · intro p hp
        refine v4 p ?_
        rw [mkdirFS_files]
        exact hp
      · omega
    | none =>
      obtain ⟨r1, r2, r3⟩ := ih
        (runVideos env ow (pyLower s.h1) (env.clock tick)
          { stats with total_episodes := stats.total_episodes + s.videos.length }
          (mkdirFS fs (pyLower s.h1)) (tick + 1) s.videos).stats
        (runVideos env ow (pyLower s.h1) (env.clock tick)
          { stats with total_episodes := stats.total_episodes + s.videos.length }
          (mkdirFS fs (pyLower s.h1)) (tick + 1) s.videos).fs
        (runVideos env ow (pyLower s.h1) (env.clock tick)
          { stats with total_episodes := stats.total_episodes + s.videos.length }
          (mkdirFS fs (pyLower s.h1)) (tick + 1) s.videos).tick
      simp only [runSeasons, herr]
      refine ⟨?_, ?_, ?_⟩
      · simp only [countFetch, List.countP_append] at v1 r1 ⊢
        have hm := mkdirEvs_countFetch fs (pyLower s.h1)
        simp only [countFetch] at hm
        simp only [List.map_cons, List.sum_cons]
        omega
      · intro p hp
        refine r2 p (v4 p ?_)
        rw [mkdirFS_files]
        exact hp
      · omega

lemma runSeasons_err_none (env : Env) (ow : Bool) (doc : List Season) :
    ∀ (stats : Stats) (fs : FS) (tick : Nat),
    (∀ s ∈ doc, ∀ v ∈ s.videos, exOk (make_filename v.src (pyLower v.title)) = true) →
    (runSeasons env ow stats fs tick doc).err = none := by
  induction doc with
  | nil =>
    intro stats fs tick _
    simp [runSeasons]
  | cons s rest ih =>
    intro stats fs tick hok
    have hvids := runVideos_err_none env ow (pyLower s.h1) (env.clock tick) s.videos
      { stats with total_episodes := stats.total_episodes + s.videos.length }
      (mkdirFS fs (pyLower s.h1)) (tick + 1)
      (fun v hv => hok s (List.mem_cons_self s rest) v hv)
    cases herr : (runVideos env ow (pyLower s.h1) (env.clock tick)
        { stats with total_episodes := stats.total_episodes + s.videos.length }
        (mkdirFS fs (pyLower s.h1)) (tick + 1) s.videos).err with
    | some e => rw [herr] at hvids; exact absurd hvids (by simp)
    | none =>
      simp only [runSeasons, herr]
      exact ih _ _ _ (fun s' hs' => hok s' (List.mem_cons_of_mem s hs'))

lemma runSeasons_mkdir (env : Env) (ow : Bool) (doc : List Season) :
    ∀ (stats : Stats) (fs : FS) (tick : Nat),
    (doc.map fun s => pyLower s.h1).Pairwise (· ≠ ·) →
    (∀ s ∈ doc, pyLower s.h1 ∉ fs.dirs) →
    (∀ s ∈ doc, ∀ v ∈ s.videos, exOk (make_filename v.src (pyLower v.title)) = true) →
    countMkdir (runSeasons env ow stats fs tick doc).evs = doc.length := by
  induction doc with
  | nil =>
    intro stats fs tick _ _ _
    simp [runSeasons, countMkdir]
  | cons s rest ih =>
    intro stats fs tick hdist hfresh hok
    have hdir : pyLower s.h1 ∉ fs.dirs := hfresh s (List.mem_cons_self s rest)
    obtain ⟨v1, v2, v3, v4, v5, v6⟩ := runVideos_basic env ow (pyLower s.h1)
      (env.clock tick) s.videos
      { stats with total_episodes := stats.total_episodes + s.videos.length }
      (mkdirFS fs (pyLower s.h1)) (tick + 1)
    have herr := runVideos_err_none env ow (pyLower s.h1) (env.clock tick) s.videos
      { stats with total_episodes := stats.total_episodes + s.videos.length }
      (mkdirFS fs (pyLower s.h1)) (tick + 1)
      (fun v hv => hok s (List.mem_cons_self s rest) v hv)
    cases herr2 : (runVideos env ow (pyLower s.h1) (env.clock tick)
        { stats with total_episodes := stats.total_episodes + s.videos.length }
        (mkdirFS fs (pyLower s.h1)) (tick + 1) s.videos).err with
    | some e => rw [herr2] at herr; exact absurd herr (by simp)
    | none =>
      simp only [runSeasons, herr2]
      have hd2 : ∀ s' ∈ rest, pyLower s'.h1 ∉
          (runVideos env ow (pyLower s.h1) (env.clock tick)
            { stats with total_episodes := stats.total_episodes + s.videos.length }
            (mkdirFS fs (pyLower s.h1)) (tick + 1) s.videos).fs.dirs := by
        intro s' hs'
        rw [v3, mkdirFS_dirs_fresh fs (pyLower s.h1) hdir]
        intro hmem
        rcases List.mem_append.mp hmem with hin | hin
        · exact hfresh s' (List.mem_cons_of_mem s hs') hin
        · rw [List.map_cons, List.pairwise_cons] at hdist
          have hne : pyLower s.h1 ≠ pyLower s'.h1 :=
            hdist.1 (pyLower s'.h1) (List.mem_map_of_mem _ hs')
          simp only [List.mem_singleton] at hin
          exact hne hin.symm
      rw [List.map_cons, List.pairwise_cons] at hdist
      have hrec := ih (runVideos env ow (pyLower s.h1) (env.clock tick)
          { stats with total_episodes := stats.total_episodes + s.videos.length }
          (mkdirFS fs (pyLower s.h1)) (tick + 1) s.videos).stats (runVideos env ow (pyLower s.h1) (env.clock tick)
          { stats with total_episodes := stats.total_episodes + s.videos.length }
          (mkdirFS fs (pyLower s.h1)) (tick + 1) s.videos).fs (runVideos env ow (pyLower s.h1) (env.clock tick)
          { stats with total_episodes := stats.total_episodes + s.videos.length }
          (mkdirFS fs (pyLower s.h1)) (tick + 1) s.videos).tick hdist.2 hd2
        (fun s' hs' => hok s' (List.mem_cons_of_mem s hs'))
      simp only [countMkdir, List.countP_append] at v2 hrec ⊢
      have hm : countMkdir (mkdirEvs fs (pyLower s.h1)) = 1 :=
        mkdirEvs_countMkdir fs (pyLower s.h1) hdir
      simp only [countMkdir] at hm
      simp only [List.length_cons]
      omega

lemma runSeasons_nofetch (env : Env) (ow : Bool) (doc : List Season) (p : String)
    (how : ow = false) :
    ∀ (stats : Stats) (fs : FS) (tick : Nat), p ∈ fs.files →
    countFetchTo p (runSeasons env ow stats fs tick doc).evs = 0 := by
  induction doc with
  | nil =>
    intro stats fs tick _
    simp [runSeasons, countFetchTo]
  | cons s rest ih =>
    intro stats fs tick hp
    obtain ⟨v1, v2, v3, v4, v5, v6⟩ := runVideos_basic env ow (pyLower s.h1)
      (env.clock tick) s.videos
      { stats with total_episodes := stats.total_episodes + s.videos.length }
      (mkdirFS fs (pyLower s.h1)) (tick + 1)
    have hvid := runVideos_nofetch env ow (pyLower s.h1) (env.clock tick) p
      s.videos how
      { stats with total_episodes := stats.total_episodes + s.videos.length }
      (mkdirFS fs (pyLower s.h1)) (tick + 1)
      (by rw [mkdirFS_files]; exact hp)
    have hmk := mkdirEvs_countFetchTo fs (pyLower s.h1) p
    cases herr : (runVideos env ow (pyLower s.h1) (env.clock tick)
        { stats with total_episodes := stats.total_episodes + s.videos.length }
        (mkdirFS fs (pyLower s.h1)) (tick + 1) s.videos).err with
    | some e =>
      simp only [runSeasons, herr]
      simp only [countFetchTo, List.countP_append] at hvid hmk ⊢
      omega
    | none =>
      have hrec := ih (runVideos env ow (pyLower s.h1) (env.clock tick)
          { stats with total_episodes := stats.total_episodes + s.videos.length }
          (mkdirFS fs (pyLower s.h1)) (tick + 1) s.videos).stats (runVideos env ow (pyLower s.h1) (env.clock tick)
          { stats with total_episodes := stats.total_episodes + s.videos.length }
          (mkdirFS fs (pyLower s.h1)) (tick + 1) s.videos).fs (runVideos env ow (pyLower s.h1) (env.clock tick)
          { stats with total_episodes := stats.total_episodes + s.videos.length }
          (mkdirFS fs (pyLower s.h1)) (tick + 1) s.videos).tick (v4 p (by rw [mkdirFS_files]; exact hp))
      simp only [runSeasons, herr]
      simp only [countFetchTo, List.countP_append] at hvid hmk hrec ⊢
      omega

lemma runSeasons_once (env : Env) (ow : Bool) (doc : List Season) (p : String)
    (how : ow = false) :
    ∀ (stats : Stats) (fs : FS) (tick : Nat),
    countFetchTo p (runSeasons env ow stats fs tick doc).evs ≤ 1 ∧
    (1 ≤ countFetchTo p (runSeasons env ow stats fs tick doc).evs →
      p ∈ (runSeasons env ow stats fs tick doc).fs.files) := by
  induction doc with
  | nil =>
    intro stats fs tick
    simp [runSeasons, countFetchTo]
  | cons s rest ih =>
    intro stats fs tick
    obtain ⟨v1, v2, v3, v4, v5, v6⟩ := runVideos_basic env ow (pyLower s.h1)
      (env.clock tick) s.videos
      { stats with total_episodes := stats.total_episodes + s.videos.length }
      (mkdirFS fs (pyLower s.h1)) (tick + 1)
    obtain ⟨o1, o2⟩ := runVideos_once env ow (pyLower s.h1) (env.clock tick) p
      s.videos how
      { stats with total_episodes := stats.total_episodes + s.videos.length }
      (mkdirFS fs (pyLower s.h1)) (tick + 1)
    have hmk := mkdirEvs_countFetchTo fs (pyLower s.h1) p
    cases herr : (runVideos env ow (pyLower s.h1) (env.clock tick)
        { stats with total_episodes := stats.total_episodes + s.videos.length }
        (mkdirFS fs (pyLower s.h1)) (tick + 1) s.videos).err with
    | some e =>
      simp only [runSeasons, herr]
      constructor
      · simp only [countFetchTo, List.countP_append] at o1 hmk ⊢
        omega
      · intro hcnt
        refine o2 ?_
        simp only [countFetchTo, List.countP_append] at hcnt hmk ⊢
        omega
    | none =>
      obtain ⟨r1, r2⟩ := ih
        (runVideos env ow (pyLower s.h1) (env.clock tick)
          { stats with total_episodes := stats.total_episodes + s.videos.length }
          (mkdirFS fs (pyLower s.h1)) (tick + 1) s.videos).stats
        (runVideos env ow (pyLower s.h1) (env.clock tick)
          { stats with total_episodes := stats.total_episodes + s.videos.length }
          (mkdirFS fs (pyLower s.h1)) (tick + 1) s.videos).fs
        (runVideos env ow (pyLower s.h1) (env.clock tick)
          { stats with total_episodes := stats.total_episodes + s.videos.length }
          (mkdirFS fs (pyLower s.h1)) (tick + 1) s.videos).tick
      obtain ⟨s1, s2, s3⟩ := runSeasons_basic env ow rest
        (runVideos env ow (pyLower s.h1) (env.clock tick)
          { stats with total_episodes := stats.total_episodes + s.videos.length }
          (mkdirFS fs (pyLower s.h1)) (tick + 1) s.videos).stats
        (runVideos env ow (pyLower s.h1) (env.clock tick)
          { stats with total_episodes := stats.total_episodes + s.videos.length }
          (mkdirFS fs (pyLower s.h1)) (tick + 1) s.videos).fs
        (runVideos env ow (pyLower s.h1) (env.clock tick)
          { stats with total_episodes := stats.total_episodes + s.videos.length }
          (mkdirFS fs (pyLower s.h1)) (tick + 1) s.videos).tick
      by_cases hv1 : 1 ≤ countFetchTo p
          (runVideos env ow (pyLower s.h1) (env.clock tick)
            { stats with total_episodes := stats.total_episodes + s.videos.length }
            (mkdirFS fs (pyLower s.h1)) (tick + 1) s.videos).evs
      · have hnof := runSeasons_nofetch env ow rest p how
          (runVideos env ow (pyLower s.h1) (env.clock tick)
            { stats with total_episodes := stats.total_episodes + s.videos.length }
            (mkdirFS fs (pyLower s.h1)) (tick + 1) s.videos).stats
          (runVideos env ow (pyLower s.h1) (env.clock tick)
            { stats with total_episodes := stats.total_episodes + s.videos.length }
            (mkdirFS fs (pyLower s.h1)) (tick + 1) s.videos).fs
          (runVideos env ow (pyLower s.h1) (env.clock tick)
            { stats with total_episodes := stats.total_episodes + s.videos.length }
            (mkdirFS fs (pyLower s.h1)) (tick + 1) s.videos).tick
          (o2 hv1)
        simp only [runSeasons, herr]
        constructor
        · simp only [countFetchTo, List.countP_append] at o1 hmk hnof ⊢
          omega
        · intro _
          exact s2 p (o2 hv1)
      · push_neg at hv1
        simp only [runSeasons, herr]
        constructor
        · simp only [countFetchTo, List.countP_append] at r1 hmk hv1 ⊢
          omega
        · intro hcnt
          refine r2 ?_
          simp only [countFetchTo, List.countP_append] at hcnt hmk hv1 ⊢
          omega

lemma runSeasons_all_fetch (env : Env) (ow : Bool) (doc : List Season)
    (how : ow = true) :
    ∀ (stats : Stats) (fs : FS) (tick : Nat),
    (∀ s ∈ doc, ∀ v ∈ s.videos, exOk (make_filename v.src (pyLower v.title)) = true) →
    countFetch (runSeasons env ow stats fs tick doc).evs =
      (doc.map fun s => s.videos.length).sum ∧
    ∀ s ∈ doc, ∀ v ∈ s.videos, ∀ f, make_filename v.src (pyLower v.title) = .ok f →
      Ev.fetch v.src (pathJoin (pyLower s.h1) f) ∈ (runSeasons env ow stats fs tick doc).evs ∧
      pathJoin (pyLower s.h1) f ∈ (runSeasons env ow stats fs tick doc).fs.files := by
  induction doc with
  | nil =>
    intro stats fs tick _
    simp [runSeasons, countFetch]
  | cons s rest ih =>
    intro stats fs tick hok
    have hokhead : ∀ v ∈ s.videos, exOk (make_filename v.src (pyLower v.title)) = true :=
      fun v hv => hok s (List.mem_cons_self s rest) v hv
    have hoktail : ∀ s' ∈ rest, ∀ v ∈ s'.videos,
        exOk (make_filename v.src (pyLower v.title)) = true :=
      fun s' hs' => hok s' (List.mem_cons_of_mem s hs')
    obtain ⟨a1, a2, a3⟩ := runVideos_all_fetch env ow (pyLower s.h1) (env.clock tick)
      s.videos how
      { stats with total_episodes := stats.total_episodes + s.videos.length }
      (mkdirFS fs (pyLower s.h1)) (tick + 1) hokhead
    have herr := runVideos_err_none env ow (pyLower s.h1) (env.clock tick) s.videos
      { stats with total_episodes := stats.total_episodes + s.videos.length }
      (mkdirFS fs (pyLower s.h1)) (tick + 1) hokhead
    cases herr2 : (runVideos env ow (pyLower s.h1) (env.clock tick)
        { stats with total_episodes := stats.total_episodes + s.videos.length }
        (mkdirFS fs (pyLower s.h1)) (tick + 1) s.videos).err with
    | some e => rw [herr2] at herr; exact absurd herr (by simp)
    | none =>
      obtain ⟨r1, r2⟩ := ih
        (runVideos env ow (pyLower s.h1) (env.clock tick)
          { stats with total_episodes := stats.total_episodes + s.videos.length }
          (mkdirFS fs (pyLower s.h1)) (tick + 1) s.videos).stats
        (runVideos env ow (pyLower s.h1) (env.clock tick)
          { stats with total_episodes := stats.total_episodes + s.videos.length }
          (mkdirFS fs (pyLower s.h1)) (tick + 1) s.videos).fs
        (runVideos env ow (pyLower s.h1) (env.clock tick)
          { stats with total_episodes := stats.total_episodes + s.videos.length }
          (mkdirFS fs (pyLower s.h1)) (tick + 1) s.videos).tick hoktail
      obtain ⟨s1, s2, s3⟩ := runSeasons_basic env ow rest
        (runVideos env ow (pyLower s.h1) (env.clock tick)
          { stats with total_episodes := stats.total_episodes + s.videos.length }
          (mkdirFS fs (pyLower s.h1)) (tick + 1) s.videos).stats
        (runVideos env ow (pyLower s.h1) (env.clock tick)
          { stats with total_episodes := stats.total_episodes + s.videos.length }
          (mkdirFS fs (pyLower s.h1)) (tick + 1) s.videos).fs
        (runVideos env ow (pyLower s.h1) (env.clock tick)
          { stats with total_episodes := stats.total_episodes + s.videos.length }
          (mkdirFS fs (pyLower s.h1)) (tick + 1) s.videos).tick
      simp only [runSeasons, herr2]
      constructor
      · have hmk := mkdirEvs_countFetch fs (pyLower s.h1)
        simp only [countFetch, List.countP_append] at a1 r1 hmk ⊢
        simp only [List.map_cons, List.sum_cons]
        omega
      · intro s' hs' v hv f hf
        rcases List.mem_cons.mp hs' with hEq | hmem
        · subst hEq
          obtain ⟨m1, m2⟩ := a3 v hv f hf
          refine ⟨?_, s2 _ m2⟩
          simp only [List.mem_append]
          exact Or.inl (Or.inr m1)
        · obtain ⟨m1, m2⟩ := r2 s' hmem v hv f hf
          refine ⟨?_, m2⟩
          simp only [List.mem_append]
          exact Or.inr m1

lemma sum_const_lengths (doc : List Season) (M : Nat)
    (h : ∀ s ∈ doc, s.videos.length = M) :
    (doc.map fun s => s.videos.length).sum = doc.length * M := by
  induction doc with
  | nil => simp
  | cons s rest ih =>
    simp only [List.map_cons, List.sum_cons, List.length_cons]
    rw [h s (List.mem_cons_self s rest),
      ih (fun s' hs' => h s' (List.mem_cons_of_mem s hs'))]
    ring

lemma runSeasons_chain (env : Env) (ow : Bool) (doc : List Season)
    (hclock : ∀ m n : Nat, m ≤ n → env.clock m ≤ env.clock n)
    (hsize : ∀ p : String, 0 ≤ env.fsize p) :
    ∀ (stats : Stats) (fs : FS) (tick : Nat),
    stats.total_downloads ≤ stats.total_episodes →
    List.Chain statsLe stats (runSeasons env ow stats fs tick doc).trace ∧
    (runSeasons env ow stats fs tick doc).trace.getLastD stats =
      (runSeasons env ow stats fs tick doc).stats ∧
    (∀ st ∈ (runSeasons env ow stats fs tick doc).trace,
      st.total_downloads ≤ st.total_episodes) ∧
    (runSeasons env ow stats fs tick doc).stats.total_downloads ≤
      (runSeasons env ow stats fs tick doc).stats.total_episodes := by
  induction doc with
  | nil =>
    intro stats fs tick hinv
    simpa [runSeasons] using hinv
  | cons s rest ih =>
    intro stats fs tick hinv
    obtain ⟨v1, v2, v3, v4, v5, v6⟩ := runVideos_basic env ow (pyLower s.h1)
      (env.clock tick) s.videos
      { stats with total_episodes := stats.total_episodes + s.videos.length }
      (mkdirFS fs (pyLower s.h1)) (tick + 1)
    obtain ⟨ch, lastEq, mems, fin⟩ := runVideos_chain env ow (pyLower s.h1)
      (env.clock tick) s.videos hclock hsize
      { stats with total_episodes := stats.total_episodes + s.videos.length }
      (mkdirFS fs (pyLower s.h1)) (tick + 1)
      (fun n hn => hclock tick n (by omega)) (by simp; omega)
    have hstep : statsLe stats
        { stats with total_episodes := stats.total_episodes + s.videos.length } :=
      ⟨Nat.le_add_right _ _, le_refl _, le_refl _, le_refl _⟩
    cases herr : (runVideos env ow (pyLower s.h1) (env.clock tick)
        { stats with total_episodes := stats.total_episodes + s.videos.length }
        (mkdirFS fs (pyLower s.h1)) (tick + 1) s.videos).err with
    | some e =>
      simp only [runSeasons, herr]
      refine ⟨List.Chain.cons hstep ch, ?_, ?_, fin⟩
      · rw [getLastD_cons']
        exact lastEq
      · intro st hst
        rcases List.mem_cons.mp hst with hEq | hmem
        · subst hEq
          simp
          omega
        · exact mems st hmem
    | none =>
      obtain ⟨rch, rlast, rmems, rfin⟩ := ih
        (runVideos env ow (pyLower s.h1) (env.clock tick)
          { stats with total_episodes := stats.total_episodes + s.videos.length }
          (mkdirFS fs (pyLower s.h1)) (tick + 1) s.videos).stats
        (runVideos env ow (pyLower s.h1) (env.clock tick)
          { stats with total_episodes := stats.total_episodes + s.videos.length }
          (mkdirFS fs (pyLower s.h1)) (tick + 1) s.videos).fs
        (runVideos env ow (pyLower s.h1) (env.clock tick)
          { stats with total_episodes := stats.total_episodes + s.videos.length }
          (mkdirFS fs (pyLower s.h1)) (tick + 1) s.videos).tick fin
      simp only [runSeasons, herr]
      refine ⟨?_, ?_, ?_, rfin⟩
      · refine List.Chain.cons hstep ?_
        refine chain_append_of statsLe _ _ _ ch ?_
        rw [lastEq]
        exact rch
      · rw [getLastD_cons', getLastD_append', lastEq]
        exact rlast
      · intro st hst
        rcases List.mem_cons.mp hst with hEq | hmem
        · subst hEq
          simp
          omega
        · rcases List.mem_append.mp hmem with hin | hin
          · exact mems st hin
          · exact rmems st hin

lemma seasonT_time :
    (download_all envT [seasonT] false initStats emptyFS).stats.total_time_sec = 3 := by
  have h1 : make_filename "http://h/s1e1.mp4" (pyLower "1. Pilot") =
      .ok "S01E01 Pilot.mp4" := by decide
  have h2 : make_filename "http://h/s1e2.mp4" (pyLower "2. Arrival") =
      .ok "S01E02 Arrival.mp4" := by decide
  simp +decide [download_all, runSeasons, runVideos, h1, h2, seasonT, initStats,
    emptyFS, envT, idClock, mkdirFS, writeFile]
  norm_num

/-- C3: the code adds `te - ts` to `total_time_sec` inside the per-video loop
(lines 117-118 of the source), so a season of two episodes whose downloads
end at clock readings 1 and 2 (season start read 0) accumulates
(1 - 0) + (2 - 0) = 3 seconds, not the once-per-season span 2 - 0 = 2 that
the claim (and the intent of reporting elapsed wall-clock time) describes. -/
theorem time_accumulated_per_episode :
    (download_all envT [seasonT] false initStats emptyFS).stats.total_time_sec =
      (idClock 1 - idClock 0) + (idClock 2 - idClock 0) ∧
    (download_all envT [seasonT] false initStats emptyFS).stats.total_time_sec ≠
      idClock 2 - idClock 0 := by
  refine ⟨?_, ?_⟩
  · rw [seasonT_time]
    norm_num [idClock]
  · rw [seasonT_time]
    norm_num [idClock]

/-- C7: on a document with no season containers nothing is ever added to
`total_time_sec`, so the final `total_size_MB / total_time_sec` (line 167 of
the source, with no guard) is a division by zero. -/
theorem empty_walk_divides_by_zero (env : Env) (fs : FS) (ow : Bool) :
    (download_all env [] ow initStats fs).stats.total_time_sec = 0 ∧
    averageSpeed (download_all env [] ow initStats fs).stats =
      .error .zeroDivisionError := by
  constructor
  · rfl
  · rfl

/-- C4 counterexample: a document with N = 2 season containers that share
the heading text `X` creates only one directory, not two. -/
theorem duplicate_titles_one_mkdir :
    docDup.length = 2 ∧
    countMkdir (download_all envT docDup false initStats emptyFS).evs = 1 := by
  constructor
  · rfl
  · decide

/-- C4 (amended): a full walk creates one directory per season when the
lower-cased season titles are pairwise distinct, none pre-exists, and every
filename derivation succeeds; it issues at most N*M fetch attempts; with
overwrite off it never fetches a source whose target path already existed;
and with overwrite on it fetches all N*M sources provided every filename
derivation succeeds (a failing derivation aborts the walk). -/
theorem walk_dirs_and_fetch_bounds (env : Env) (doc : List Season) (ow : Bool)
    (stats : Stats) (fs : FS) (M : Nat) :
    ((doc.map fun s => pyLower s.h1).Pairwise (· ≠ ·) →
      (∀ s ∈ doc, pyLower s.h1 ∉ fs.dirs) →
      (∀ s ∈ doc, ∀ v ∈ s.videos, exOk (make_filename v.src (pyLower v.title)) = true) →
      countMkdir (download_all env doc ow stats fs).evs = doc.length) ∧
    ((∀ s ∈ doc, s.videos.length = M) →
      countFetch (download_all env doc ow stats fs).evs ≤ doc.length * M) ∧
    (ow = false → ∀ u p, Ev.fetch u p ∈ (download_all env doc ow stats fs).evs →
      p ∉ fs.files) ∧
    (ow = true →
      (∀ s ∈ doc, ∀ v ∈ s.videos, exOk (make_filename v.src (pyLower v.title)) = true) →
      (∀ s ∈ doc, s.videos.length = M) →
      countFetch (download_all env doc ow stats fs).evs = doc.length * M) := by
  refine ⟨?_, ?_, ?_, ?_⟩
  · intro h1 h2 h3
    exact runSeasons_mkdir env ow doc stats fs 0 h1 h2 h3
  · intro hM
    have h : countFetch (download_all env doc ow stats fs).evs ≤
        (doc.map fun s => s.videos.length).sum := (runSeasons_basic env ow doc stats fs 0).1
    rw [sum_const_lengths doc M hM] at h
    exact h
  · intro how u p hev hp
    have h0 : countFetchTo p (download_all env doc ow stats fs).evs = 0 :=
      runSeasons_nofetch env ow doc p how stats fs 0 hp
    have hpos : 0 < countFetchTo p (download_all env doc ow stats fs).evs := by
      rw [countFetchTo]
      exact List.countP_pos_iff.mpr ⟨Ev.fetch u p, hev, by simp⟩
    omega
  · intro how hok hM
    have h : countFetch (download_all env doc ow stats fs).evs =
        (doc.map fun s => s.videos.length).sum :=
      (runSeasons_all_fetch env ow doc how stats fs 0 hok).1
    rw [sum_const_lengths doc M hM] at h
    exact h

/-- Witness for the amended C4: two distinct seasons with one well-formed
source each, walked with overwrite on, create 2 directories and fetch
2 * 1 sources. -/
theorem walk_dirs_and_fetch_bounds_witness :
    countMkdir (download_all envT docW true initStats emptyFS).evs = docW.length ∧
    countFetch (download_all envT docW true initStats emptyFS).evs = docW.length * 1 := by
  constructor
  · exact (walk_dirs_and_fetch_bounds envT docW true initStats emptyFS 1).1
      (by decide) (by decide) (by decide)
  · exact (walk_dirs_and_fetch_bounds envT docW true initStats emptyFS 1).2.2.2 rfl
      (by decide) (by decide)

/-- C5 counterexample: with overwrite on, a discovered source whose trailing
URL segment has no dot aborts the walk with `ValueError` before any fetch,
so the discovered episode's path is not re-fetched. -/
theorem overwrite_abort_no_fetch :
    (docBad.map fun s => s.videos.length).sum = 1 ∧
    (download_all envT docBad true initStats emptyFS).err = some .valueError ∧
    countFetch (download_all envT docBad true initStats emptyFS).evs = 0 := by
  refine ⟨rfl, by decide, by decide⟩

/-- C5 (amended): with overwrite off each destination path receives at most
one fetch (hence is written at most once) per run; with overwrite on, every
discovered episode whose filename derivation succeeds is fetched and its
path written, even if the file already exists — provided all derivations in
the document succeed, since a failing one aborts the remaining walk. -/
theorem walk_write_once_and_overwrite_refetch (env : Env) (doc : List Season)
    (ow : Bool) (stats : Stats) (fs : FS) :
    (ow = false → ∀ p : String,
      countFetchTo p (download_all env doc ow stats fs).evs ≤ 1) ∧
    (ow = true →
      (∀ s ∈ doc, ∀ v ∈ s.videos, exOk (make_filename v.src (pyLower v.title)) = true) →
      ∀ s ∈ doc, ∀ v ∈ s.videos, ∀ f, make_filename v.src (pyLower v.title) = .ok f →
        Ev.fetch v.src (pathJoin (pyLower s.h1) f) ∈
          (download_all env doc ow stats fs).evs ∧
        pathJoin (pyLower s.h1) f ∈ (download_all env doc ow stats fs).fs.files) := by
  constructor
  · intro how p
    exact (runSeasons_once env ow doc p how stats fs 0).1
  · intro how hok
    exact (runSeasons_all_fetch env ow doc how stats fs 0 hok).2

/-- Witness for the amended C5: on the two-season document, any fixed path
is fetched at most once with overwrite off, and with overwrite on the first
episode's fetch event is present in the log. -/
theorem walk_write_once_and_overwrite_refetch_witness :
    countFetchTo "a/S01E01 Alpha.mp4"
      (download_all envT docW false initStats emptyFS).evs ≤ 1 ∧
    Ev.fetch "http://h/s1e1.mp4" (pathJoin (pyLower "A") "S01E01 Alpha.mp4") ∈
      (download_all envT docW true initStats emptyFS).evs := by
  constructor
  · exact (walk_write_once_and_overwrite_refetch envT docW false initStats emptyFS).1
      rfl "a/S01E01 Alpha.mp4"
  · exact ((walk_write_once_and_overwrite_refetch envT docW true initStats emptyFS).2
      rfl (by decide) ⟨"A", [⟨"1. Alpha", "http://h/s1e1.mp4"⟩]⟩ (by decide)
      ⟨"1. Alpha", "http://h/s1e1.mp4"⟩ (by decide) "S01E01 Alpha.mp4" (by decide)).1

/-- C6: when every episode of a season already exists on disk and overwrite
is off, the walk leaves `total_downloads` and `total_size_MB` unchanged,
performs no fetch (each episode yields a skip event instead), and still adds
the number of discovered sources to `total_episodes`. -/
theorem skip_preserves_download_stats (env : Env) (stats : Stats) (fs : FS)
    (tick : Nat) (s : Season)
    (hall : ∀ v ∈ s.videos, ∃ f, make_filename v.src (pyLower v.title) = .ok f ∧
      pathJoin (pyLower s.h1) f ∈ fs.files) :
    (runSeasons env false stats fs tick [s]).stats.total_downloads =
      stats.total_downloads ∧
    (runSeasons env false stats fs tick [s]).stats.total_size_MB =
      stats.total_size_MB ∧
    (runSeasons env false stats fs tick [s]).stats.total_episodes =
      stats.total_episodes + s.videos.length ∧
    countFetch (runSeasons env false stats fs tick [s]).evs = 0 ∧
    countSkip (runSeasons env false stats fs tick [s]).evs = s.videos.length := by
  obtain ⟨k1, k2, k3, k4, k5, k6⟩ := runVideos_skip_all env false (pyLower s.h1)
    (env.clock tick) s.videos rfl
    { stats with total_episodes := stats.total_episodes + s.videos.length }
    (mkdirFS fs (pyLower s.h1)) (tick + 1)
    (fun v hv => by
      obtain ⟨f, hf, hmem⟩ := hall v hv
      exact ⟨f, hf, by rw [mkdirFS_files]; exact hmem⟩)
  obtain ⟨v1, v2, v3, v4, v5, v6⟩ := runVideos_basic env false (pyLower s.h1)
    (env.clock tick) s.videos
    { stats with total_episodes := stats.total_episodes + s.videos.length }
    (mkdirFS fs (pyLower s.h1)) (tick + 1)
  simp only [runSeasons, k4]
  have hmkF := mkdirEvs_countFetch fs (pyLower s.h1)
  have hmkS := mkdirEvs_countSkip fs (pyLower s.h1)
  refine ⟨?_, ?_, ?_, ?_, ?_⟩
  · simpa [runSeasons] using k1
  · simpa [runSeasons] using k2
  · simpa [runSeasons] using v5
  · simp only [countFetch_append, hmkF, k3]
    simp [countFetch]
  · simp only [countSkip_append, hmkS, k6]
    simp [countSkip]

/-- Witness for C6: re-walking a one-episode season whose file already
exists performs no fetch, one skip, keeps downloads and size at zero, and
still counts the episode. -/
theorem skip_preserves_download_stats_witness :
    (runSeasons envT false initStats fsC6 0 [sC6]).stats.total_downloads =
      initStats.total_downloads ∧
    (runSeasons envT false initStats fsC6 0 [sC6]).stats.total_size_MB =
      initStats.total_size_MB ∧
    (runSeasons envT false initStats fsC6 0 [sC6]).stats.total_episodes =
      initStats.total_episodes + sC6.videos.length ∧
    countFetch (runSeasons envT false initStats fsC6 0 [sC6]).evs = 0 ∧
    countSkip (runSeasons envT false initStats fsC6 0 [sC6]).evs =
      sC6.videos.length :=
  skip_preserves_download_stats envT initStats fsC6 0 sC6 (fun v hv => by
    have hv' : v = ⟨"1. Pilot", "http://h/s1e1.mp4"⟩ := by
      simpa [sC6] using hv
    subst hv'
    exact ⟨"S01E01 Pilot.mp4", by decide, by decide⟩)

/-- C10: under a monotone clock and nonnegative file sizes, every stats
snapshot of a walk dominates the previous one componentwise (all four fields
only ever grow), and `total_downloads ≤ total_episodes` holds at every
snapshot and at the final state, because each season's episode count is
added before any of its downloads. -/
theorem stats_monotone_and_invariant (env : Env) (doc : List Season) (ow : Bool)
    (stats : Stats) (fs : FS)
    (hclock : ∀ m n : Nat, m ≤ n → env.clock m ≤ env.clock n)
    (hsize : ∀ p : String, 0 ≤ env.fsize p)
    (hinv : stats.total_downloads ≤ stats.total_episodes) :
    List.Chain statsLe stats (download_all env doc ow stats fs).trace ∧
    (download_all env doc ow stats fs).trace.getLastD stats =
      (download_all env doc ow stats fs).stats ∧
    (∀ st ∈ (download_all env doc ow stats fs).trace,
      st.total_downloads ≤ st.total_episodes) ∧
    (download_all env doc ow stats fs).stats.total_downloads ≤
      (download_all env doc ow stats fs).stats.total_episodes :=
  runSeasons_chain env ow doc hclock hsize stats fs 0 hinv

/-- Witness for C10 at a concrete two-episode walk under the identity clock
and zero file sizes. -/
theorem stats_monotone_and_invariant_witness :
    List.Chain statsLe initStats (download_all envW [seasonT] false initStats emptyFS).trace ∧
    (download_all envW [seasonT] false initStats emptyFS).trace.getLastD initStats =
      (download_all envW [seasonT] false initStats emptyFS).stats ∧
    (∀ st ∈ (download_all envW [seasonT] false initStats emptyFS).trace,
      st.total_downloads ≤ st.total_episodes) ∧
    (download_all envW [seasonT] false initStats emptyFS).stats.total_downloads ≤
      (download_all envW [seasonT] false initStats emptyFS).stats.total_episodes :=
  stats_monotone_and_invariant envW [seasonT] false initStats emptyFS
    (fun m n h => Nat.cast_le.mpr h) (fun p => le_refl 0) (Nat.le_refl 0)
